import Mathlib

/-!
Verification development for the apify-etl-lib pipeline orchestrator
(`src/index.js`).  The JavaScript source is shallowly embedded: pure
computations become Lean functions, filesystem effects become explicit
state passing over finite-map models of directories, the `try`/`catch`
error flow becomes `Except`, and the side effects of `scrape`/`archive`
(error logs, HTTP posts, directory operations) are recorded as explicit
event traces.
-/

namespace ApifyEtl

/-! ## Calendar dates and the date-fns fragment used by the source

`src/index.js` uses `format`, `startOfToday`, `endOfToday` and
`differenceInDays` from date-fns v1.  Dates are modelled as civil
calendar dates; `toDays` is the standard civil-from-days day-number
algorithm, so `differenceInDays a b` is the signed number of full
calendar days from `b` to `a`, exactly date-fns v1's
`differenceInDays(dateLeft, dateRight)` at day granularity. -/

structure CalDate where
  year : Nat
  month : Nat
  day : Nat
deriving DecidableEq, Repr, Inhabited

/-- Day number of a civil date (days since 1970-01-01, Gregorian). -/
def toDays (d : CalDate) : Int :=
  let y : Int := if d.month ≤ 2 then (d.year : Int) - 1 else (d.year : Int)
  let era : Int := (if 0 ≤ y then y else y - 399) / 400
  let yoe : Int := y - era * 400
  let mp : Int := ((d.month : Int) + 9) % 12
  let doy : Int := (153 * mp + 2) / 5 + (d.day : Int) - 1
  let doe : Int := yoe * 365 + yoe / 4 - yoe / 100 + doy
  era * 146097 + doe - 719468

/-- date-fns v1 `differenceInDays(dateLeft, dateRight)` at day granularity. -/
def differenceInDays (dateLeft dateRight : CalDate) : Int :=
  toDays dateLeft - toDays dateRight

/-- Zero-padded two-digit rendering, the `MM` / `DD` format tokens. -/
def pad2 (n : Nat) : String :=
  if n < 10 then "0" ++ toString n else toString n

/-- Zero-padded four-digit rendering, the `YYYY` format token. -/
def pad4 (n : Nat) : String :=
  if n < 10 then "000" ++ toString n
  else if n < 100 then "00" ++ toString n
  else if n < 1000 then "0" ++ toString n
  else toString n

/-- A moment in time: a calendar day plus milliseconds within the day. -/
structure Moment where
  date : CalDate
  msOfDay : Nat
deriving DecidableEq, Repr

/-- date-fns `startOfToday()`: the current day at 00:00:00.000. -/
def startOfToday (today : CalDate) : Moment := ⟨today, 0⟩

/-- date-fns `endOfToday()`: the current day at 23:59:59.999. -/
def endOfToday (today : CalDate) : Moment := ⟨today, 86399999⟩

/-- date-fns v1 `format(m, 'MM/DD/YYYY')`: only the calendar-day part of
the moment is rendered. -/
def formatMMDDYYYY (m : Moment) : String :=
  pad2 m.date.month ++ "/" ++ pad2 m.date.day ++ "/" ++ pad4 m.date.year

/-! ## RunOptions and the scrape input payload

`Options` models the options record read by `scrape` and the
stage functions.  Numeric budget fields are modelled after
`parseInt(..., 10)` has been applied.  A JavaScript variable holding
either a date value or a formatted date string is modelled by `JsDate`;
absent (`undefined`) option fields are `Option.none`. -/

inductive JsDate where
  | asStr (s : String)
  | asDate (d : CalDate)
deriving DecidableEq, Repr

structure Options where
  RAW_DATA_DIR : String := "raw_data"
  NORMALIZED_DATA_DIR : String := "normalized_data"
  DOWNLOAD_DIR : String := "download"
  ARCHIVED_DIR : Option String := none
  ARCHIVED_RAW_DATA_DIR : Option String := none
  ARCHIVED_NORMALIZED_DATA_DIR : Option String := none
  ARCHIVED_DOWNLOAD_DIR : Option String := none
  GET_DATASET_ENDPOINT : String := ""
  DATA_FILE : String := "data.json"
  RUN_TASK_ENDPOINT : String := ""
  REQUESTS_PER_DAY : Nat := 0
  REQUEST_DEPTHS_PER_DAY : Nat := 0
  DAILY : Bool := false
  START_DATE : Option CalDate := none
  END_DATE : Option CalDate := none
  DRY_RUN : Bool := false
  SKIP_ARCHIVE_DOWNLOAD : Bool := false
deriving DecidableEq, Repr

/-- The mutable `config.INPUT` object that `scrape` overlays schedule
fields onto (the fields the source reads or writes). -/
structure InputData where
  startDate : JsDate := .asStr ""
  endDate : JsDate := .asStr ""
  maxRequestsPerCrawl : Nat := 0
  maxRequestDepth : Nat := 0
  isTestRun : Bool := false
  logLevel : Nat := 0
deriving DecidableEq, Repr

/-- The caller-supplied base configuration object (`config`), whose
`INPUT` field `scrape` writes through. -/
structure Config where
  INPUT : InputData
deriving DecidableEq, Repr

/-- `getDailyOptions(data, requestsPerDay, requestDepthsPerDay)` from
`src/index.js` lines 80–86: overlays today's window (formatted
`MM/DD/YYYY`) and the one-day budgets onto `data`. -/
def getDailyOptions (data : InputData) (requestsPerDay requestDepthsPerDay : Nat)
    (today : CalDate) : InputData :=
  { data with
    startDate := .asStr (formatMMDDYYYY (startOfToday today))
    endDate := .asStr (formatMMDDYYYY (endOfToday today))
    maxRequestsPerCrawl := requestsPerDay
    maxRequestDepth := requestDepthsPerDay }

/-- `getDateRangeOptions(data, requestsPerDay, requestDepthsPerDay,
startDate, endDate)` from `src/index.js` lines 88–95: passes the
caller's dates through and scales both budgets by
`Math.abs(differenceInDays(startDate, endDate)) + 1`. -/
def getDateRangeOptions (data : InputData) (requestsPerDay requestDepthsPerDay : Nat)
    (startDate endDate : CalDate) : InputData :=
  let numOfDays : Nat := (differenceInDays startDate endDate).natAbs + 1
  { data with
    startDate := .asDate startDate
    endDate := .asDate endDate
    maxRequestsPerCrawl := requestsPerDay * numOfDays
    maxRequestDepth := requestDepthsPerDay * numOfDays }

/-- Observable side effects of `scrape`: error log lines and the
unconditional `axios.post(options.RUN_TASK_ENDPOINT, data)`. -/
inductive ScrapeEvent where
  | logError (msg : String)
  | postTask (endpoint : String) (body : InputData)
deriving DecidableEq, Repr

/-- Result of `scrape`: the post-state of the caller's `config` object
(whose `INPUT` the source mutates in place) and the emitted events. -/
structure ScrapeResult where
  config : Config
  events : List ScrapeEvent
deriving DecidableEq, Repr

/-- `scrape(options, config)` from `src/index.js` lines 147–173:
aliases `data = config.INPUT`, applies the dry-run overrides, branches
on `options.DAILY`, then on `options.START_DATE && options.END_DATE`,
logging `'Invalid command!'` otherwise, and always posts `data` to
`options.RUN_TASK_ENDPOINT`. -/
def scrape (options : Options) (config : Config) (today : CalDate) : ScrapeResult :=
  let data := config.INPUT
  let data := if options.DRY_RUN then { data with isTestRun := true, logLevel := 5 } else data
  let requestsPerDay := options.REQUESTS_PER_DAY
  let requestDepthsPerDay := options.REQUEST_DEPTHS_PER_DAY
  if options.DAILY then
    let data := getDailyOptions data requestsPerDay requestDepthsPerDay today
    { config := ⟨data⟩
      events := [.postTask options.RUN_TASK_ENDPOINT data] }
  else
    match options.START_DATE, options.END_DATE with
    | some s, some e =>
      let data := getDateRangeOptions data requestsPerDay requestDepthsPerDay s e
      { config := ⟨data⟩
        events := [.postTask options.RUN_TASK_ENDPOINT data] }
    | _, _ =>
      { config := ⟨data⟩
        events := [.logError "Invalid command!",
                   .postTask options.RUN_TASK_ENDPOINT data] }

/-! ## The orchestrator's exception handling

`processDataset` (`src/index.js` lines 175–189) awaits the four stage
operations in order inside one `try`/`catch`.  The stages are embedded
as arbitrary `Except`-valued functions so the theorem quantifies over
every behaviour of `getDataset` / `normalize` / `load` / `archive`,
including throwing.  The returned list records the log lines the source
emits on each path. -/

/-- The `await getDataset; await normalize; await load; await archive`
sequence inside the `try` block. -/
def runStages {E : Type} (gd nz ld ar : Options → Except E Unit)
    (options : Options) : Except E Unit := do
  gd options
  nz options
  ld options
  ar options

/-- `processDataset(options)` from `src/index.js` lines 175–189:
runs the stage chain inside `try`/`catch`; a caught error is logged and
the function still reaches the final log line and returns normally. -/
def processDataset {E : Type} (gd nz ld ar : Options → Except E Unit)
    (options : Options) : Except E (List String) :=
  match runStages gd nz ld ar options with
  | .ok _ =>
      .ok ["Processing dataset", "Finish processing dataset"]
  | .error _ =>
      .ok ["Processing dataset", "Error processing dataset",
           "Finish processing dataset"]

/-! ## Directories as association lists

A directory is a finite map from entry names to file contents,
embedded as an association list with first-match lookup.  `FlatFS`
models a whole subtree as a map from relative paths (segment lists) to
contents. -/

section AssocMap

variable {κ : Type} [DecidableEq κ]

/-- First-match lookup in an association list. -/
def lookupKey : List (κ × Nat) → κ → Option Nat
  | [], _ => none
  | (n, c) :: rest, k => if n = k then some c else lookupKey rest k

/-- Remove every entry with the given key. -/
def removeKey : List (κ × Nat) → κ → List (κ × Nat)
  | [], _ => []
  | (n, c) :: rest, k =>
      if n = k then removeKey rest k else (n, c) :: removeKey rest k

/-- Write an entry, overwriting any entry with the same key. -/
def insertKey (m : List (κ × Nat)) (k : κ) (c : Nat) : List (κ × Nat) :=
  (k, c) :: removeKey m k

/-- The keys of an association list (`fs.readdir` on a directory). -/
def keysOf (m : List (κ × Nat)) : List κ := m.map Prod.fst

end AssocMap

/-- A single directory: entry name to file content. -/
abbrev Dir := List (String × Nat)

/-- One `fs.rename(src + '/' + filename, dest + '/' + filename)`:
moves the named entry from `src` into `dest`, overwriting any existing
`dest` entry of that name.  Renaming an absent entry changes nothing. -/
def renameFile (src dest : Dir) (filename : String) : Dir × Dir :=
  match lookupKey src filename with
  | some c => (removeKey src filename, insertKey dest filename c)
  | none => (src, dest)

/-- `moveFilesToDir(src, dest)` from `src/index.js` lines 52–66 on its
success path: reads the entries of `src` and renames each into `dest`.
The renames are issued concurrently on distinct names in the source;
since they touch disjoint entries, their combined effect is embedded as
a fold over the listed names. -/
def moveFilesToDir (src dest : Dir) : Dir × Dir :=
  (keysOf src).foldl (fun sd filename => renameFile sd.1 sd.2 filename) (src, dest)

/-- A directory subtree as a finite map from relative paths (segment
lists) to file contents. -/
abbrev FlatFS := List (List String × Nat)

/-- Modelled from the spec: the body of `recursiveCopy` (`src/index.js`
lines 68–78) delegates to the external `recursive-copy` module, whose
implementation is not in this repository.  Per the spec's Tree
Replicator contract, it "recursively copies every file and subdirectory
from `srcDir` into `destDir`, preserving relative structure, without
deleting the source": the result is the unchanged source plus a
destination in which every source path shadows any same-path
destination entry (first-match lookup). -/
def recursiveCopy (src dest : FlatFS) : FlatFS × FlatFS :=
  (src, src ++ dest)

/-! ## Directory provisioning (`makeDir` / `mkdirp.sync`)

The directory part of the filesystem is the set of existing
directories, each identified by its path segments.  `mkdirp.sync(dir)`
creates the directory and all missing ancestors and succeeds when they
already exist. -/

/-- The set of existing directories, as segment paths. -/
abbrev DirFS := List (List String)

/-- Create one directory if missing. -/
def insertPath (fs : DirFS) (q : List String) : DirFS :=
  if q ∈ fs then fs else q :: fs

/-- All nonempty prefixes of a segment list, shortest first: the
ancestor chain `mkdirp` provisions. -/
def prefixesOf : List String → List (List String)
  | [] => []
  | s :: rest => [s] :: (prefixesOf rest).map (fun q => s :: q)

/-- Path-string to segment list (splitting on the separator). -/
def segs (p : String) : List String :=
  match p.splitOn "/" with
  | [] => [""]
  | l => l

/-- The directories `mkdirp.sync p` ensures exist. -/
def mkdirTargets (p : String) : List (List String) :=
  prefixesOf (segs p)

/-- `makeDir(dir)` from `src/index.js` lines 42–50: `mkdirp.sync(dir)`
inside `try`/`catch`, so it never throws.  Modelled from the spec: the
`mkdirp` implementation is an external npm module, embedded per the
Directory Provisioner contract — "creates `path` and all missing
ancestors; no-op (not an error) if `path` already exists". -/
def makeDir (fs : DirFS) (p : String) : DirFS :=
  (mkdirTargets p).foldl insertPath fs

/-- The directory denoted by `p` exists in `fs`. -/
def dirExists (fs : DirFS) (p : String) : Prop :=
  segs p ∈ fs

instance (fs : DirFS) (p : String) : Decidable (dirExists fs p) := by
  unfold dirExists; infer_instance

/-! ## The Archive stage

`archive(options)` (`src/index.js` lines 116–145) computes the dated
archive directories from today's date, provisions them, moves the raw
and normalized working directories into the archive, and (unless
`SKIP_ARCHIVE_DOWNLOAD`) copies the download directory.  Its filesystem
effects are recorded as an operation trace. -/

inductive ArchiveOp where
  | mkDir (dir : String)
  | moveFiles (src dest : String)
  | copyTree (src dest : String)
deriving DecidableEq, Repr

/-- The sequence of filesystem operations `archive` performs, in source
order (the two `moveFiles` are awaited together by `Promise.all`; they
act on distinct directories). -/
def archiveOps (options : Options) (date : CalDate) : List ArchiveOp :=
  let archivedDir := options.ARCHIVED_DIR.getD "archived"
  let downloadDir := options.DOWNLOAD_DIR
  let rawDataDir := options.RAW_DATA_DIR
  let normalizedDataDir := options.NORMALIZED_DATA_DIR
  let year := pad4 date.year
  let month := pad2 date.month
  let day := pad2 date.day
  let datedArchivedDir := archivedDir ++ "/" ++ year ++ "/" ++ month ++ "/" ++ day
  let archivedRawDataDir := options.ARCHIVED_RAW_DATA_DIR.getD (datedArchivedDir ++ "/raw")
  let archivedNormalizedDataDir :=
    options.ARCHIVED_NORMALIZED_DATA_DIR.getD (datedArchivedDir ++ "/normalized")
  [.mkDir datedArchivedDir,
   .mkDir archivedRawDataDir,
   .mkDir archivedNormalizedDataDir,
   .moveFiles rawDataDir archivedRawDataDir,
   .moveFiles normalizedDataDir archivedNormalizedDataDir] ++
  (if !options.SKIP_ARCHIVE_DOWNLOAD then
    let archivedDownloadDir :=
      options.ARCHIVED_DOWNLOAD_DIR.getD (datedArchivedDir ++ "/download")
    [.mkDir archivedDownloadDir,
     .copyTree downloadDir archivedDownloadDir]
  else [])

/-- The directories `archive` provisions with `makeDir`, in order. -/
def archiveMkdirDirs (options : Options) (date : CalDate) : List String :=
  (archiveOps options date).filterMap fun op =>
    match op with
    | .mkDir d => some d
    | _ => none

/-- Run the `makeDir` calls of a list of directories over the
filesystem (the Archive stage's directory-provisioning effect). -/
def provisionDirs (fs : DirFS) (dirs : List String) : DirFS :=
  dirs.foldl makeDir fs

/-! ## Concrete records used by scenario theorems and witnesses -/

/-- A base config whose `INPUT` carries the default template fields. -/
def baseConfig : Config := ⟨{}⟩

/-- An options record with neither the daily flag nor a date pair. -/
def invalidOptions : Options :=
  { DAILY := false, START_DATE := none, END_DATE := none,
    REQUESTS_PER_DAY := 100, REQUEST_DEPTHS_PER_DAY := 3,
    RUN_TASK_ENDPOINT := "https://apify.test/run-task" }

/-- An options record supplying both the daily flag and explicit dates. -/
def bothModesOptions : Options :=
  { DAILY := true, START_DATE := some ⟨2024, 1, 1⟩, END_DATE := some ⟨2024, 1, 5⟩,
    REQUESTS_PER_DAY := 10, REQUEST_DEPTHS_PER_DAY := 2,
    RUN_TASK_ENDPOINT := "https://apify.test/run-task" }

/-- A dry-run, daily-mode options record. -/
def dryDailyOptions : Options :=
  { DAILY := true, DRY_RUN := true,
    REQUESTS_PER_DAY := 100, REQUEST_DEPTHS_PER_DAY := 3,
    RUN_TASK_ENDPOINT := "https://apify.test/run-task" }

/-- Sample current date used by concrete scenarios. -/
def sampleDate : CalDate := ⟨2024, 3, 7⟩

/-- An archive-scenario options record: `ARCHIVED_DIR = "archived"`, no
per-subtree overrides, download archival not skipped. -/
def archiveScenarioOptions : Options :=
  { RAW_DATA_DIR := "raw-work",
    NORMALIZED_DATA_DIR := "normalized-work",
    DOWNLOAD_DIR := "download-work",
    ARCHIVED_DIR := some "archived",
    SKIP_ARCHIVE_DOWNLOAD := false }

/-! ## Association-list lemmas -/

section AssocMapLemmas

variable {κ : Type} [DecidableEq κ]

theorem lookupKey_isSome_of_mem_keys {m : List (κ × Nat)} {k : κ}
    (h : k ∈ keysOf m) : (lookupKey m k).isSome = true := by
  induction m with
  | nil => simp [keysOf] at h
  | cons ent rest ih =>
    obtain ⟨n, c⟩ := ent
    by_cases hk : n = k
    · simp [lookupKey, hk]
    · simp only [keysOf, List.map_cons, List.mem_cons] at h
      rcases h with h | h
      · exact absurd h.symm hk
      · simpa [lookupKey, hk] using ih (by simpa [keysOf] using h)

theorem lookupKey_removeKey_self (m : List (κ × Nat)) (k : κ) :
    lookupKey (removeKey m k) k = none := by
  induction m with
  | nil => rfl
  | cons ent rest ih =>
    obtain ⟨n, c⟩ := ent
    by_cases hk : n = k <;> simp [removeKey, lookupKey, hk, ih]

theorem lookupKey_removeKey_ne {n f : κ} (m : List (κ × Nat)) (h : n ≠ f) :
    lookupKey (removeKey m n) f = lookupKey m f := by
  induction m with
  | nil => rfl
  | cons ent rest ih =>
    obtain ⟨k, c⟩ := ent
    by_cases hk : k = n
    · subst hk
      simp [removeKey, lookupKey, h, ih]
    · by_cases hf : k = f <;> simp [removeKey, lookupKey, hk, hf, ih, Ne.symm h]

theorem lookupKey_insertKey_self (m : List (κ × Nat)) (k : κ) (c : Nat) :
    lookupKey (insertKey m k c) k = some c := by
  simp [insertKey, lookupKey]

theorem lookupKey_insertKey_ne {n f : κ} (m : List (κ × Nat)) (c : Nat) (h : n ≠ f) :
    lookupKey (insertKey m n c) f = lookupKey m f := by
  simp [insertKey, lookupKey, h, lookupKey_removeKey_ne m h]

theorem lookupKey_append_left {m m' : List (κ × Nat)} {k : κ}
    (h : (lookupKey m k).isSome = true) :
    lookupKey (m ++ m') k = lookupKey m k := by
  induction m with
  | nil => simp [lookupKey] at h
  | cons ent rest ih =>
    obtain ⟨n, c⟩ := ent
    by_cases hk : n = k
    · simp [lookupKey, hk]
    · simp only [lookupKey, hk, if_false, if_neg hk] at h ⊢
      exact ih h

end AssocMapLemmas

/-! ## Lemmas about the file-moving fold -/

theorem renameFile_fst_lookup_ne (src dest : Dir) {n f : String} (h : n ≠ f) :
    lookupKey (renameFile src dest n).1 f = lookupKey src f := by
  unfold renameFile
  cases lookupKey src n with
  | none => rfl
  | some c => simpa using lookupKey_removeKey_ne src h

theorem renameFile_snd_lookup_ne (src dest : Dir) {n f : String} (h : n ≠ f) :
    lookupKey (renameFile src dest n).2 f = lookupKey dest f := by
  unfold renameFile
  cases lookupKey src n with
  | none => rfl
  | some c => simpa using lookupKey_insertKey_ne dest c h

theorem foldRename_lookup_of_not_mem (ns : List String) (src dest : Dir) (f : String)
    (hf : f ∉ ns) :
    lookupKey ((ns.foldl (fun sd n => renameFile sd.1 sd.2 n) (src, dest))).1 f
      = lookupKey src f ∧
    lookupKey ((ns.foldl (fun sd n => renameFile sd.1 sd.2 n) (src, dest))).2 f
      = lookupKey dest f := by
  induction ns generalizing src dest with
  | nil => exact ⟨rfl, rfl⟩
  | cons n rest ih =>
    have hnf : n ≠ f := fun hEq => hf (hEq ▸ List.mem_cons_self n rest)
    have hf' : f ∉ rest := fun hm => hf (List.mem_cons_of_mem n hm)
    simp only [List.foldl_cons]
    have hstep := ih (renameFile src dest n).1 (renameFile src dest n).2 hf'
    exact ⟨hstep.1.trans (renameFile_fst_lookup_ne src dest hnf),
           hstep.2.trans (renameFile_snd_lookup_ne src dest hnf)⟩

theorem foldRename_spec (ns : List String) (src dest : Dir) (f : String)
    (hnd : ns.Nodup) (hmem : f ∈ ns) (hs : (lookupKey src f).isSome = true) :
    lookupKey ((ns.foldl (fun sd n => renameFile sd.1 sd.2 n) (src, dest))).1 f = none ∧
    lookupKey ((ns.foldl (fun sd n => renameFile sd.1 sd.2 n) (src, dest))).2 f
      = lookupKey src f := by
  induction ns generalizing src dest with
  | nil => cases hmem
  | cons n rest ih =>
    have hnrest : n ∉ rest := (List.nodup_cons.mp hnd).1
    have hndrest : rest.Nodup := (List.nodup_cons.mp hnd).2
    simp only [List.foldl_cons]
    by_cases hnf : n = f
    · subst hnf
      obtain ⟨c, hc⟩ := Option.isSome_iff_exists.mp hs
      have hstep : renameFile src dest n = (removeKey src n, insertKey dest n c) := by
        simp [renameFile, hc]
      rw [hstep]
      have hrest := foldRename_lookup_of_not_mem rest
        (removeKey src n) (insertKey dest n c) n hnrest
      refine ⟨hrest.1.trans (lookupKey_removeKey_self src n), ?_⟩
      rw [hrest.2, lookupKey_insertKey_self, hc]
    · have hmem' : f ∈ rest := by
        rcases List.mem_cons.mp hmem with h | h
        · exact absurd h.symm hnf
        · exact h
      have hs' : (lookupKey (renameFile src dest n).1 f).isSome = true := by
        rw [renameFile_fst_lookup_ne src dest hnf]; exact hs
      have := ih (renameFile src dest n).1 (renameFile src dest n).2 hndrest hmem' hs'
      exact ⟨this.1, this.2.trans (renameFile_fst_lookup_ne src dest hnf)⟩

/-! ## Lemmas about directory provisioning -/

theorem mem_insertPath_self (fs : DirFS) (q : List String) : q ∈ insertPath fs q := by
  unfold insertPath
  split
  · assumption
  · exact List.mem_cons_self q fs

theorem mem_insertPath_of_mem {fs : DirFS} {x : List String} (h : x ∈ fs)
    (q : List String) : x ∈ insertPath fs q := by
  unfold insertPath
  split
  · exact h
  · exact List.mem_cons_of_mem q h

theorem insertPath_of_mem {fs : DirFS} {q : List String} (h : q ∈ fs) :
    insertPath fs q = fs := by
  simp [insertPath, h]

theorem mem_foldl_insertPath_of_mem {fs : DirFS} {x : List String} (h : x ∈ fs)
    (l : List (List String)) : x ∈ l.foldl insertPath fs := by
  induction l generalizing fs with
  | nil => exact h
  | cons q rest ih => exact ih (mem_insertPath_of_mem h q)

theorem mem_foldl_insertPath {l : List (List String)} {x : List String}
    (h : x ∈ l) (fs : DirFS) : x ∈ l.foldl insertPath fs := by
  induction l generalizing fs with
  | nil => cases h
  | cons q rest ih =>
    rcases List.mem_cons.mp h with h | h
    · subst h
      exact mem_foldl_insertPath_of_mem (mem_insertPath_self fs x) rest
    · exact ih h _

theorem foldl_insertPath_id {l : List (List String)} {fs : DirFS}
    (h : ∀ x ∈ l, x ∈ fs) : l.foldl insertPath fs = fs := by
  induction l with
  | nil => rfl
  | cons q rest ih =>
    simp only [List.foldl_cons, insertPath_of_mem (h q (List.mem_cons_self q rest))]
    exact ih fun x hx => h x (List.mem_cons_of_mem q hx)

theorem segs_ne_nil (p : String) : segs p ≠ [] := by
  unfold segs
  split
  · simp
  · simp_all

theorem mem_prefixesOf_self : ∀ {l : List String}, l ≠ [] → l ∈ prefixesOf l
  | [], h => absurd rfl h
  | [s], _ => by simp [prefixesOf]
  | s :: t :: rest, _ => by
    have ih : t :: rest ∈ prefixesOf (t :: rest) :=
      mem_prefixesOf_self (by simp)
    simp only [prefixesOf, List.mem_cons]
    exact Or.inr (List.mem_map_of_mem (fun q => s :: q) ih)

theorem segs_mem_mkdirTargets (p : String) : segs p ∈ mkdirTargets p :=
  mem_prefixesOf_self (segs_ne_nil p)

theorem dirExists_makeDir_self (fs : DirFS) (p : String) :
    dirExists (makeDir fs p) p :=
  mem_foldl_insertPath (segs_mem_mkdirTargets p) fs

theorem mem_makeDir_of_mem {fs : DirFS} {x : List String} (h : x ∈ fs)
    (p : String) : x ∈ makeDir fs p :=
  mem_foldl_insertPath_of_mem h _

theorem mem_makeDir_of_target {p : String} {q : List String}
    (hq : q ∈ mkdirTargets p) (fs : DirFS) : q ∈ makeDir fs p :=
  mem_foldl_insertPath hq fs

theorem makeDir_id_of_mem {fs : DirFS} {p : String}
    (h : ∀ q ∈ mkdirTargets p, q ∈ fs) : makeDir fs p = fs :=
  foldl_insertPath_id h

theorem makeDir_idem (fs : DirFS) (p : String) :
    makeDir (makeDir fs p) p = makeDir fs p :=
  makeDir_id_of_mem fun _ hq => mem_makeDir_of_target hq fs

theorem mem_provisionDirs_of_mem {fs : DirFS} {x : List String} (h : x ∈ fs)
    (ds : List String) : x ∈ provisionDirs fs ds := by
  induction ds generalizing fs with
  | nil => exact h
  | cons d rest ih => exact ih (mem_makeDir_of_mem h d)

theorem mem_provisionDirs_of_target {ds : List String} {d : String} (hd : d ∈ ds)
    {q : List String} (hq : q ∈ mkdirTargets d) (fs : DirFS) :
    q ∈ provisionDirs fs ds := by
  induction ds generalizing fs with
  | nil => cases hd
  | cons d' rest ih =>
    rcases List.mem_cons.mp hd with h | h
    · subst h
      exact mem_provisionDirs_of_mem (mem_makeDir_of_target hq fs) rest
    · exact ih h _

theorem provisionDirs_id {ds : List String} {fs : DirFS}
    (h : ∀ d ∈ ds, ∀ q ∈ mkdirTargets d, q ∈ fs) : provisionDirs fs ds = fs := by
  induction ds with
  | nil => rfl
  | cons d rest ih =>
    simp only [provisionDirs, List.foldl_cons,
      makeDir_id_of_mem (h d (List.mem_cons_self d rest))]
    exact ih fun d' hd' => h d' (List.mem_cons_of_mem d hd')

/-! ## Claim theorems -/

/-- C1: the claim says that an options record with neither the daily
flag nor a start/end date pair is rejected as a configuration error and
the pipeline does not proceed.  Evaluating `scrape` at such a record
shows the code logs `'Invalid command!'` but still posts the task
trigger with the template's pre-existing schedule fields: the run
proceeds despite the configuration error. -/
theorem scrape_invalid_config_logs_but_still_posts :
    scrape invalidOptions baseConfig sampleDate =
      { config := baseConfig
        events := [.logError "Invalid command!",
                   .postTask "https://apify.test/run-task" baseConfig.INPUT] } := rfl

/-- C2: in date-range mode the resolver passes the caller's dates
through unchanged and scales both budgets by
`|differenceInDays start end| + 1`, the absolute difference in calendar
days between start and end (in either direction) plus one. -/
theorem getDateRangeOptions_spec (data : InputData) (r d : Nat) (s e : CalDate) :
    (getDateRangeOptions data r d s e).startDate = .asDate s ∧
    (getDateRangeOptions data r d s e).endDate = .asDate e ∧
    (getDateRangeOptions data r d s e).maxRequestsPerCrawl
      = r * ((toDays s - toDays e).natAbs + 1) ∧
    (getDateRangeOptions data r d s e).maxRequestDepth
      = d * ((toDays s - toDays e).natAbs + 1) ∧
    (getDateRangeOptions data r d s e).maxRequestsPerCrawl
      = r * ((toDays e - toDays s).natAbs + 1) ∧
    (getDateRangeOptions data r d s e).maxRequestDepth
      = d * ((toDays e - toDays s).natAbs + 1) := by
  refine ⟨rfl, rfl, rfl, rfl, ?_, ?_⟩ <;>
    · simp only [getDateRangeOptions, differenceInDays]
      have habs : (toDays s - toDays e).natAbs = (toDays e - toDays s).natAbs := by omega
      rw [habs]

/-- C3: in daily mode the resolver sets `startDate` to the formatted
beginning of the current day and `endDate` to the formatted end of the
current day, both rendering as the same `MM/DD/YYYY` text for today's
calendar date, and passes the one-day budgets through unscaled. -/
theorem getDailyOptions_spec (data : InputData) (r d : Nat) (today : CalDate) :
    (getDailyOptions data r d today).startDate
      = .asStr (formatMMDDYYYY (startOfToday today)) ∧
    (getDailyOptions data r d today).endDate
      = .asStr (formatMMDDYYYY (endOfToday today)) ∧
    (getDailyOptions data r d today).startDate
      = .asStr (pad2 today.month ++ "/" ++ pad2 today.day ++ "/" ++ pad4 today.year) ∧
    (getDailyOptions data r d today).endDate
      = (getDailyOptions data r d today).startDate ∧
    (getDailyOptions data r d today).maxRequestsPerCrawl = r ∧
    (getDailyOptions data r d today).maxRequestDepth = d :=
  ⟨rfl, rfl, rfl, rfl, rfl, rfl⟩

/-- C4: whatever the four stage operations do — including any of them
failing with an exception — `processDataset` catches the failure, logs
it, and returns normally; it never propagates an error to its caller. -/
theorem processDataset_never_throws {E : Type} (gd nz ld ar : Options → Except E Unit)
    (options : Options) :
    ∃ logs, processDataset gd nz ld ar options = .ok logs := by
  unfold processDataset
  cases runStages gd nz ld ar options <;> exact ⟨_, rfl⟩

/-- C5: on the success path of `moveFilesToDir(src, dest)`, every file
that was an entry of `src` before the call is afterwards absent from
`src` and present in `dest` under the same name with its original
content — in particular any pre-existing same-named `dest` entry has
been overwritten (last-writer-wins). -/
theorem moveFilesToDir_spec (src dest : Dir) (f : String)
    (hmem : f ∈ keysOf src) (hnd : (keysOf src).Nodup) :
    lookupKey (moveFilesToDir src dest).1 f = none ∧
    lookupKey (moveFilesToDir src dest).2 f = lookupKey src f :=
  foldRename_spec (keysOf src) src dest f hnd hmem
    (lookupKey_isSome_of_mem_keys hmem)

/-- Witness for C5: moving `[a ↦ 1, b ↦ 2]` into a destination that
already has `a ↦ 9` leaves `a` absent from the source and overwrites
the destination's `a` with the source content `1`. -/
theorem moveFilesToDir_spec_witness :
    ("a" ∈ keysOf [("a", 1), ("b", 2)]) ∧
    (keysOf [("a", 1), ("b", 2)]).Nodup ∧
    (lookupKey (moveFilesToDir [("a", 1), ("b", 2)] [("a", 9)]).1 "a" = none ∧
     lookupKey (moveFilesToDir [("a", 1), ("b", 2)] [("a", 9)]).2 "a"
       = lookupKey [("a", 1), ("b", 2)] "a") :=
  ⟨by simp [keysOf], by simp [keysOf],
   moveFilesToDir_spec [("a", 1), ("b", 2)] [("a", 9)] "a"
     (by simp [keysOf]) (by simp [keysOf])⟩

/-- C6: `recursiveCopy(src, dest)` leaves the source tree unchanged and
produces a destination in which every relative path of the source holds
the source's content (a structural copy); modelled from the spec's Tree
Replicator contract because the `recursive-copy` module's implementation
is external to this repository. -/
theorem recursiveCopy_spec (src dest : FlatFS) (p : List String)
    (hmem : p ∈ keysOf src) :
    (recursiveCopy src dest).1 = src ∧
    lookupKey (recursiveCopy src dest).2 p = lookupKey src p :=
  ⟨rfl, lookupKey_append_left (lookupKey_isSome_of_mem_keys hmem)⟩

/-- Witness for C6: copying a tree containing `sub/x ↦ 3` over a
destination that already has `sub/x ↦ 8` keeps the source intact and
makes the destination's `sub/x` read `3`. -/
theorem recursiveCopy_spec_witness :
    (["sub", "x"] ∈ keysOf [(["sub", "x"], 3), (["y"], 4)]) ∧
    ((recursiveCopy [(["sub", "x"], 3), (["y"], 4)] [(["sub", "x"], 8)]).1
        = [(["sub", "x"], 3), (["y"], 4)] ∧
     lookupKey (recursiveCopy [(["sub", "x"], 3), (["y"], 4)] [(["sub", "x"], 8)]).2
        ["sub", "x"] = lookupKey [(["sub", "x"], 3), (["y"], 4)] ["sub", "x"]) :=
  ⟨by simp [keysOf],
   recursiveCopy_spec [(["sub", "x"], 3), (["y"], 4)] [(["sub", "x"], 8)]
     ["sub", "x"] (by simp [keysOf])⟩

/-- C7: `makeDir` is idempotent — calling it twice on any path is the
same as calling it once (so the second call is not an error) and leaves
the directory present; consequently replaying the Archive stage's
directory provisioning for the same calendar day a second time changes
nothing, so a same-day rerun does not fail because the dated
destinations already exist. -/
theorem makeDir_idempotent (fs : DirFS) (p : String) (options : Options)
    (date : CalDate) :
    (makeDir (makeDir fs p) p = makeDir fs p ∧ dirExists (makeDir fs p) p) ∧
    provisionDirs (provisionDirs fs (archiveMkdirDirs options date))
        (archiveMkdirDirs options date)
      = provisionDirs fs (archiveMkdirDirs options date) :=
  ⟨⟨makeDir_idem fs p, dirExists_makeDir_self fs p⟩,
   provisionDirs_id fun _ hd _ hq => mem_provisionDirs_of_target hd hq fs⟩

/-- C8: on 2024-03-07 with `ARCHIVED_DIR = "archived"` and no
overrides, `archive` provisions exactly the dated directories
`archived/2024/03/07/{raw,normalized,download}` (each `mkDir` preceding
the move/copy that populates it), populates raw and normalized by
destructive move and download by non-destructive copy, and performs the
download step only when the skip flag is unset. -/
theorem archive_scenario_2024_03_07 :
    archiveOps archiveScenarioOptions ⟨2024, 3, 7⟩ =
      [.mkDir "archived/2024/03/07",
       .mkDir "archived/2024/03/07/raw",
       .mkDir "archived/2024/03/07/normalized",
       .moveFiles "raw-work" "archived/2024/03/07/raw",
       .moveFiles "normalized-work" "archived/2024/03/07/normalized",
       .mkDir "archived/2024/03/07/download",
       .copyTree "download-work" "archived/2024/03/07/download"] ∧
    archiveOps { archiveScenarioOptions with SKIP_ARCHIVE_DOWNLOAD := true }
        ⟨2024, 3, 7⟩ =
      [.mkDir "archived/2024/03/07",
       .mkDir "archived/2024/03/07/raw",
       .mkDir "archived/2024/03/07/normalized",
       .moveFiles "raw-work" "archived/2024/03/07/raw",
       .moveFiles "normalized-work" "archived/2024/03/07/normalized"] := by
  exact ⟨rfl, rfl⟩

/-- C9: when the options set the daily flag and also supply an explicit
start/end date pair, `scrape` silently resolves daily mode: the result
is exactly the daily overlay (independent of the supplied dates) and
the only event is the task post — no error is logged. -/
theorem scrape_daily_takes_precedence (options : Options) (config : Config)
    (today : CalDate) (s e : CalDate) (hd : options.DAILY = true)
    (hs : options.START_DATE = some s) (he : options.END_DATE = some e) :
    scrape options config today =
      { config := ⟨getDailyOptions
          (if options.DRY_RUN then { config.INPUT with isTestRun := true, logLevel := 5 }
           else config.INPUT)
          options.REQUESTS_PER_DAY options.REQUEST_DEPTHS_PER_DAY today⟩
        events := [.postTask options.RUN_TASK_ENDPOINT
          (getDailyOptions
            (if options.DRY_RUN then { config.INPUT with isTestRun := true, logLevel := 5 }
             else config.INPUT)
            options.REQUESTS_PER_DAY options.REQUEST_DEPTHS_PER_DAY today)] } := by
  simp [scrape, hd]

/-- Witness for C9: an options record with `DAILY` set and both dates
supplied resolves to the daily overlay with no error event. -/
theorem scrape_daily_takes_precedence_witness :
    bothModesOptions.DAILY = true ∧
    bothModesOptions.START_DATE = some ⟨2024, 1, 1⟩ ∧
    bothModesOptions.END_DATE = some ⟨2024, 1, 5⟩ ∧
    scrape bothModesOptions baseConfig sampleDate =
      { config := ⟨getDailyOptions baseConfig.INPUT 10 2 sampleDate⟩
        events := [.postTask "https://apify.test/run-task"
          (getDailyOptions baseConfig.INPUT 10 2 sampleDate)] } :=
  ⟨rfl, rfl, rfl,
   scrape_daily_takes_precedence bothModesOptions baseConfig sampleDate
     ⟨2024, 1, 1⟩ ⟨2024, 1, 5⟩ rfl rfl rfl⟩

/-- C10: `scrape` writes through the caller's configuration object —
after it returns, the caller's `config.INPUT` (the post-state `config`
in the model) carries the dry-run overrides `isTestRun = true` and
`logLevel = 5` and, in daily mode, the overlaid schedule fields. -/
theorem scrape_mutates_config_in_place (options : Options) (config : Config)
    (today : CalDate) (hdry : options.DRY_RUN = true) (hd : options.DAILY = true) :
    (scrape options config today).config.INPUT.isTestRun = true ∧
    (scrape options config today).config.INPUT.logLevel = 5 ∧
    (scrape options config today).config.INPUT.startDate
      = .asStr (formatMMDDYYYY (startOfToday today)) ∧
    (scrape options config today).config.INPUT.endDate
      = .asStr (formatMMDDYYYY (endOfToday today)) ∧
    (scrape options config today).config.INPUT.maxRequestsPerCrawl
      = options.REQUESTS_PER_DAY ∧
    (scrape options config today).config.INPUT.maxRequestDepth
      = options.REQUEST_DEPTHS_PER_DAY := by
  simp [scrape, hd, hdry, getDailyOptions]

/-- Witness for C10: with a concrete dry-run daily options record the
caller's config carries all overlaid values after `scrape`. -/
theorem scrape_mutates_config_in_place_witness :
    dryDailyOptions.DRY_RUN = true ∧ dryDailyOptions.DAILY = true ∧
    ((scrape dryDailyOptions baseConfig sampleDate).config.INPUT.isTestRun = true ∧
     (scrape dryDailyOptions baseConfig sampleDate).config.INPUT.logLevel = 5 ∧
     (scrape dryDailyOptions baseConfig sampleDate).config.INPUT.startDate
       = .asStr (formatMMDDYYYY (startOfToday sampleDate)) ∧
     (scrape dryDailyOptions baseConfig sampleDate).config.INPUT.endDate
       = .asStr (formatMMDDYYYY (endOfToday sampleDate)) ∧
     (scrape dryDailyOptions baseConfig sampleDate).config.INPUT.maxRequestsPerCrawl
       = dryDailyOptions.REQUESTS_PER_DAY ∧
     (scrape dryDailyOptions baseConfig sampleDate).config.INPUT.maxRequestDepth
       = dryDailyOptions.REQUEST_DEPTHS_PER_DAY) :=
  ⟨rfl, rfl, scrape_mutates_config_in_place dryDailyOptions baseConfig sampleDate rfl rfl⟩

end ApifyEtl
